import Mathlib

/-!
Verification of the coincidence-detector acquisition pipeline
(src/coincidence/coincidence.py) against its specification.

The shallow embedding models:
- the frame decoder inside Controls.collect_data: seven successive
  4-byte reads, each reversed (read(4)[::-1]) and interpreted as an
  unsigned 32-bit integer by np.frombuffer on a little-endian host;
- the acquisition generator Controls.collect_data as a fuel-indexed
  function from a link model to an event trace (start byte, log writes,
  yields, file close, stop byte, raised link error);
- the rolling chart DataChart (init and update) over rationals;
- the per-frame accidental-coincidence correction of run_gui and the
  tau re-evaluation step of run_gui.

Machine floats of the source are modelled as rationals; unsigned 32-bit
counts as naturals.
-/

namespace Coincidence

/-- Little-endian interpretation of four bytes as an unsigned 32-bit
integer, as np.frombuffer with dtype uint32 does on the little-endian
host the program runs on. Missing positions read as 0. -/
def u32_le (b : List ℕ) : ℕ :=
  b.getD 0 0 + 256 * b.getD 1 0 + 65536 * b.getD 2 0 + 16777216 * b.getD 3 0

/-- Decoding of one 4-byte block: the source reverses the block, i.e.
self.ser.read(4)[::-1], then interprets it as a uint32. -/
def decode4 (block : List ℕ) : ℕ := u32_le block.reverse

/-- Decoding of one 28-byte frame into the seven channel counts in wire
order: block n holds bytes 4n..4n+3, exactly as the seven successive
read(4) calls of collect_data consume them. -/
def decodeFrame (bs : List ℕ) : Option (List ℕ) :=
  if bs.length = 28 then
    some ((List.range 7).map fun n => decode4 ((bs.drop (4 * n)).take 4))
  else none

/-- Accidental-coincidence correction applied by run_gui to one decoded
frame, channel order [A, B, Bp, AB, ABp, BBp, ABBp]. The source mutates
the frame list in place, one enabled channel after the other:
data[3] -= data[0]*data[1]*2*tau[0], data[4] -= data[0]*data[2]*2*tau[1],
data[5] -= data[1]*data[2]*2*tau[2]. -/
def applyCorrection (fAB fABp fBBp : Bool) (tau : List ℚ) (data : List ℚ) :
    List ℚ :=
  let d1 :=
    if fAB then
      data.set 3 (data.getD 3 0 - data.getD 0 0 * data.getD 1 0 * 2 * tau.getD 0 0)
    else data
  let d2 :=
    if fABp then
      d1.set 4 (d1.getD 4 0 - d1.getD 0 0 * d1.getD 2 0 * 2 * tau.getD 1 0)
    else d1
  if fBBp then
    d2.set 5 (d2.getD 5 0 - d2.getD 1 0 * d2.getD 2 0 * 2 * tau.getD 2 0)
  else d2

/-- Outcome of evaluating the operator text box once per frame: either
eval raises (the except-pass branch of run_gui) or it yields a numeric
vector. -/
inductive TauInput where
  | unparsable : TauInput
  | parsed : List ℚ → TauInput

/-- Tau re-evaluation step of run_gui, given the active tau value: when
eval raises, tau keeps its previous value (except: pass); when eval
yields a vector whose length is not 3, tau is set to initial_tau, the
default argument of run_gui; otherwise the parsed vector becomes tau. -/
def tauStep (initial_tau : List ℚ) (inp : TauInput) (tau : List ℚ) : List ℚ :=
  match inp with
  | TauInput.unparsable => tau
  | TauInput.parsed v => if v.length ≠ 3 then initial_tau else v

/-- Bytes of seven wire blocks [0,0,0,1]: each block reversed is
[1,0,0,0], the little-endian encoding of 1. -/
def sampleFrameBytes : List ℕ :=
  [0, 0, 0, 1] ++ [0, 0, 0, 1] ++ [0, 0, 0, 1] ++ [0, 0, 0, 1] ++
  [0, 0, 0, 1] ++ [0, 0, 0, 1] ++ [0, 0, 0, 1]

/-- Model of np.linspace(a, b, n): n evenly spaced points from a to b,
endpoints included (with the numpy conventions for n = 0 and n = 1).
The charts only ever display positions that update has overwritten, so
only the length of this list matters to the stated properties. -/
def linspace (a b : ℚ) (n : ℕ) : List ℚ :=
  if n ≤ 1 then List.replicate n a
  else (List.range n).map fun i : ℕ => a + (b - a) * (i : ℚ) / ((n : ℚ) - 1)

/-- State of one DataChart (the plot handle and axis objects are
graphics collaborators and carry no pipeline state). -/
structure DataChart where
  samples : ℕ
  interval : ℚ
  delta_t : ℚ
  t_buffer : List ℚ
  data_buffer : List ℚ
  index : ℕ
  time : ℚ
  data : ℚ
  sum : ℚ

/-- DataChart.__init__: samples = int(interval/delta_t) (the source
ratios are nonnegative, where int() agrees with the floor),
interval = samples*delta_t, t_buffer = linspace(0, interval, samples),
data_buffer = zeros(samples), index = time = data = sum = 0. -/
def DataChart.init (interval delta_t : ℚ) : DataChart :=
  let samples := (⌊interval / delta_t⌋).toNat
  { samples := samples
    interval := (samples : ℚ) * delta_t
    delta_t := delta_t
    t_buffer := linspace 0 interval samples
    data_buffer := List.replicate samples 0
    index := 0
    time := 0
    data := 0
    sum := 0 }

/-- The in-place numpy assignment buf[:-1] = buf[1:]: positions
0..n-2 receive the old positions 1..n-1 and the last position keeps its
old value. -/
def shiftLeft (l : List ℚ) : List ℚ := l.drop 1 ++ l.drop (l.length - 1)

/-- DataChart.update(data): remember data, read t = time; when the
window is full (index = samples) shift both buffers left and decrement
index; write t and data at position index; advance time by delta_t; set
index = min(index+1, samples); add data to sum. -/
def DataChart.update (st : DataChart) (v : ℚ) : DataChart :=
  let t := st.time
  let tb := if st.index = st.samples then shiftLeft st.t_buffer else st.t_buffer
  let db := if st.index = st.samples then shiftLeft st.data_buffer else st.data_buffer
  let i := if st.index = st.samples then st.index - 1 else st.index
  { st with
    data := v
    t_buffer := tb.set i t
    data_buffer := db.set i v
    index := min (i + 1) st.samples
    time := st.time + st.delta_t
    sum := st.sum + v }

/-- Folding a sequence of samples through DataChart.update. -/
def DataChart.updateSeq (st : DataChart) (vs : List ℚ) : DataChart :=
  vs.foldl DataChart.update st

/-- The displayed window: update plots buffers[:index+1] just before
incrementing index, i.e. buffers[:index] of the post-update state. -/
def DataChart.window (st : DataChart) : List (ℚ × ℚ) :=
  (st.t_buffer.take st.index).zip (st.data_buffer.take st.index)

/-- Timestamps the chart assigns to the first k ingested samples. -/
def timesList (delta_t : ℚ) (k : ℕ) : List ℚ :=
  (List.range k).map fun j : ℕ => (j : ℚ) * delta_t

/-- Invariant of one chart after ingesting the samples vs through
update: buffer lengths and capacity are stable, index is min(k, N), the
logical clock holds k*delta_t, sum holds the total of all samples, and
the first index positions of the two buffers hold the last min(k, N)
samples together with the timestamps they were ingested at. -/
def chartInv (delta_t : ℚ) (N : ℕ) (vs : List ℚ) (st : DataChart) : Prop :=
  st.samples = N ∧
  st.delta_t = delta_t ∧
  st.t_buffer.length = N ∧
  st.data_buffer.length = N ∧
  st.index = min vs.length N ∧
  st.time = (vs.length : ℚ) * delta_t ∧
  st.sum = vs.sum ∧
  st.t_buffer.take st.index =
    (timesList delta_t vs.length).drop (vs.length - N) ∧
  st.data_buffer.take st.index = vs.drop (vs.length - N)

/-- Observable events of one run of Controls.collect_data, in order:
the start byte written to the serial port, each log record, each yielded
frame, the log-file close, the stop byte, and a propagating read
exception. -/
inductive Ev where
  | start : Ev
  | logged : List ℕ → Ev
  | yielded : List ℕ → Ev
  | closedFile : Ev
  | sentStop : Ev
  | raised : Ev
deriving DecidableEq

/-- The keep_running flag as collect_data observes it at the check that
precedes frame i: a stop request raised after frame j clears the flag
for every check from the j-th frame boundary on. -/
def keepRunning (stopAfter : Option ℕ) (i : ℕ) : Bool :=
  match stopAfter with
  | none => true
  | some j => decide (i < j)

/-- One full 28-byte hardware read for frame i followed by decoding:
none models a raising link read (or an undecodable short read). -/
def readFrame (link : ℕ → Option (List ℕ)) (i : ℕ) : Option (List ℕ) :=
  (link i).bind decodeFrame

/-- Events after the while loop of collect_data exits normally: the log
file is closed first (when a filename was given), then the stop byte x
is written. -/
def finishEvents (hasFile : Bool) : List Ev :=
  (if hasFile then [Ev.closedFile] else []) ++ [Ev.sentStop]

/-- The while loop of collect_data, driven to completion by the caller
(run_gui drains the generator): while keep_running and samples != 0, a
positive budget is decremented, one frame is read and decoded (a read
failure propagates immediately: no close, no stop byte), logged when a
filename was given, and yielded; on normal exit the file is closed and
the stop byte is sent. The fuel argument only bounds the number of
modelled iterations; none means the loop was still running when fuel
ran out. -/
def collectAux (link : ℕ → Option (List ℕ)) (stopAfter : Option ℕ)
    (hasFile : Bool) :
    ℕ → ℤ → ℕ → List Ev → Option (List Ev)
  | 0, samples, i, acc =>
    if keepRunning stopAfter i = true ∧ samples ≠ 0 then none
    else some (acc ++ finishEvents hasFile)
  | fuel + 1, samples, i, acc =>
    if keepRunning stopAfter i = true ∧ samples ≠ 0 then
      match readFrame link i with
      | none => some (acc ++ [Ev.raised])
      | some f =>
        collectAux link stopAfter hasFile fuel
          (if samples > 0 then samples - 1 else samples) (i + 1)
          (acc ++ (if hasFile then [Ev.logged f] else []) ++ [Ev.yielded f])
    else some (acc ++ finishEvents hasFile)

/-- Controls.collect_data(samples): write the start byte s, run the
loop. -/
def collect_data (link : ℕ → Option (List ℕ)) (stopAfter : Option ℕ)
    (hasFile : Bool) (fuel : ℕ) (samples : ℤ) : Option (List Ev) :=
  collectAux link stopAfter hasFile fuel samples 0 [Ev.start]

/-- The frames fr i, fr (i+1), ..., fr (i+n-1). -/
def framesFrom (fr : ℕ → List ℕ) : ℕ → ℕ → List (List ℕ)
  | _, 0 => []
  | i, n + 1 => fr i :: framesFrom fr (i + 1) n

/-- Loop events for n successfully processed frames starting at frame
i: optional log record then yield, frame after frame. -/
def frameBlock (hasFile : Bool) (fr : ℕ → List ℕ) : ℕ → ℕ → List Ev
  | _, 0 => []
  | i, n + 1 =>
    (if hasFile then [Ev.logged (fr i)] else []) ++ [Ev.yielded (fr i)] ++
      frameBlock hasFile fr (i + 1) n

/-- Frames yielded along a trace. -/
def yieldedOf (tr : List Ev) : List (List ℕ) :=
  tr.filterMap fun e =>
    match e with
    | Ev.yielded f => some f
    | _ => none

/-- Records written to the log along a trace. -/
def loggedOf (tr : List Ev) : List (List ℕ) :=
  tr.filterMap fun e =>
    match e with
    | Ev.logged f => some f
    | _ => none

/-- A healthy link whose every read returns 28 zero bytes. -/
def zeroLink : ℕ → Option (List ℕ) := fun _ => some (List.replicate 28 0)

/-- The frame the zero link decodes to. -/
def zeroFrame : List ℕ := List.replicate 7 0

lemma getD_lt_256 (c : List ℕ) (h : ∀ x ∈ c, x < 256) (i : ℕ) :
    c.getD i 0 < 256 := by
  by_cases hi : i < c.length
  · rw [List.getD_eq_getElem c 0 hi]
    exact h _ (List.getElem_mem hi)
  · rw [List.getD_eq_default]
    · norm_num
    · omega

lemma u32_le_lt (c : List ℕ) (h : ∀ x ∈ c, x < 256) : u32_le c < 2 ^ 32 := by
  have h0 := getD_lt_256 c h 0
  have h1 := getD_lt_256 c h 1
  have h2 := getD_lt_256 c h 2
  have h3 := getD_lt_256 c h 3
  have hpow : (2 : ℕ) ^ 32 = 4294967296 := by norm_num
  unfold u32_le
  omega

lemma mem_block_sub {bs : List ℕ} {x m k : ℕ}
    (hx : x ∈ ((bs.drop m).take k).reverse) : x ∈ bs := by
  rw [List.mem_reverse] at hx
  exact List.drop_subset m bs (List.take_subset _ _ hx)

lemma linspace_length (a b : ℚ) (n : ℕ) : (linspace a b n).length = n := by
  unfold linspace
  by_cases h : n ≤ 1
  · simp [h]
  · rw [if_neg h, List.length_map, List.length_range]

lemma shiftLeft_length (l : List ℚ) : (shiftLeft l).length = l.length := by
  unfold shiftLeft
  rw [List.length_append, List.length_drop, List.length_drop]
  omega

lemma take_succ_set (l : List ℚ) (i : ℕ) (x : ℚ) (h : i < l.length) :
    (l.set i x).take (i + 1) = l.take i ++ [x] := by
  induction l generalizing i with
  | nil => simp at h
  | cons y l ih =>
    cases i with
    | zero => simp
    | succ i =>
      simp only [List.set, List.take, List.cons_append]
      rw [ih i (by simpa using h)]

lemma shiftLeft_take (l : List ℚ) :
    (shiftLeft l).take (l.length - 1) = l.drop 1 := by
  unfold shiftLeft
  have hlen : (l.drop 1).length = l.length - 1 := by simp
  rw [← hlen, List.take_left]

lemma shiftLeft_set_take (l : List ℚ) (x : ℚ) (N : ℕ)
    (hl : l.length = N) (hN : 1 ≤ N) :
    (((shiftLeft l).set (N - 1) x).take N) = l.drop 1 ++ [x] := by
  have hlen : N - 1 < (shiftLeft l).length := by
    rw [shiftLeft_length, hl]; omega
  have h1 : (N - 1) + 1 = N := by omega
  have h2 := take_succ_set (shiftLeft l) (N - 1) x hlen
  rw [h1] at h2
  rw [h2]
  have h3 := shiftLeft_take l
  rw [hl] at h3
  rw [h3]

lemma map_snd_zip_eq : ∀ a b : List ℚ, a.length = b.length →
    (a.zip b).map Prod.snd = b
  | [], [], _ => rfl
  | [], _ :: _, h => by simp at h
  | _ :: _, [], h => by simp at h
  | _ :: a, y :: b, h => by
    simp only [List.zip_cons_cons, List.map_cons]
    rw [map_snd_zip_eq a b (by simpa using h)]

/-- One update step on a state whose buffers hold the last samples as a
prefix of length index: the new window prefix extends by the new pair,
dropping the oldest entry when the window was full. -/
lemma update_step (st : DataChart) (v : ℚ) (k N : ℕ) (T V : List ℚ)
    (hs : st.samples = N) (hN : 1 ≤ N)
    (hlt : st.t_buffer.length = N) (hld : st.data_buffer.length = N)
    (hi : st.index = min k N)
    (hT : st.t_buffer.take st.index = T)
    (hV : st.data_buffer.take st.index = V) :
    (st.update v).samples = N ∧
    (st.update v).delta_t = st.delta_t ∧
    (st.update v).t_buffer.length = N ∧
    (st.update v).data_buffer.length = N ∧
    (st.update v).index = min (k + 1) N ∧
    (st.update v).time = st.time + st.delta_t ∧
    (st.update v).sum = st.sum + v ∧
    (st.update v).t_buffer.take (st.update v).index =
      (if k < N then T else T.drop 1) ++ [st.time] ∧
    (st.update v).data_buffer.take (st.update v).index =
      (if k < N then V else V.drop 1) ++ [v] := by
  by_cases hfull : st.index = st.samples
  · have hkN : ¬ k < N := by omega
    have hiN : st.index = N := by omega
    rw [hiN] at hT hV
    have hTw : st.t_buffer = T := by rw [← hT, ← hlt, List.take_length]
    have hVw : st.data_buffer = V := by rw [← hV, ← hld, List.take_length]
    have etb : (st.update v).t_buffer =
        (shiftLeft st.t_buffer).set (N - 1) st.time := by
      simp [DataChart.update, hfull, hs]
    have edb : (st.update v).data_buffer =
        (shiftLeft st.data_buffer).set (N - 1) v := by
      simp [DataChart.update, hfull, hs]
    have eidx : (st.update v).index = N := by
      simp only [DataChart.update, if_pos hfull]
      rw [hiN, hs]
      omega
    refine ⟨by simp [DataChart.update, hs], by simp [DataChart.update],
      ?_, ?_, ?_, by simp [DataChart.update], by simp [DataChart.update],
      ?_, ?_⟩
    · rw [etb, List.length_set, shiftLeft_length, hlt]
    · rw [edb, List.length_set, shiftLeft_length, hld]
    · rw [eidx]; omega
    · rw [etb, eidx, shiftLeft_set_take st.t_buffer st.time N hlt hN,
        if_neg hkN, hTw]
    · rw [edb, eidx, shiftLeft_set_take st.data_buffer v N hld hN,
        if_neg hkN, hVw]
  · have hkN : k < N := by omega
    have hiK : st.index = k := by omega
    rw [hiK] at hT hV
    have hkneq : ¬ k = st.samples := by omega
    have etb : (st.update v).t_buffer = st.t_buffer.set k st.time := by
      simp [DataChart.update, hiK, hkneq]
    have edb : (st.update v).data_buffer = st.data_buffer.set k v := by
      simp [DataChart.update, hiK, hkneq]
    have eidx : (st.update v).index = k + 1 := by
      simp only [DataChart.update, if_neg hfull]
      rw [hiK, hs]
      omega
    refine ⟨by simp [DataChart.update, hs], by simp [DataChart.update],
      ?_, ?_, ?_, by simp [DataChart.update], by simp [DataChart.update],
      ?_, ?_⟩
    · rw [etb, List.length_set, hlt]
    · rw [edb, List.length_set, hld]
    · rw [eidx]; omega
    · rw [etb, eidx, take_succ_set _ _ _ (by omega), if_pos hkN, hT]
    · rw [edb, eidx, take_succ_set _ _ _ (by omega), if_pos hkN, hV]

lemma timesList_length (delta_t : ℚ) (k : ℕ) :
    (timesList delta_t k).length = k := by
  simp [timesList]

lemma timesList_succ (delta_t : ℚ) (k : ℕ) :
    timesList delta_t (k + 1) = timesList delta_t k ++ [(k : ℚ) * delta_t] := by
  simp [timesList, List.range_succ]

lemma drop_sub_append (L : List ℚ) (x : ℚ) (N k : ℕ)
    (hL : L.length = k) (hN : 1 ≤ N) :
    (L ++ [x]).drop (k + 1 - N) =
      (if k < N then L.drop (k - N) else (L.drop (k - N)).drop 1) ++ [x] := by
  subst hL
  by_cases h : L.length < N
  · rw [if_pos h]
    have h0 : L.length + 1 - N = 0 := by omega
    have h1 : L.length - N = 0 := by omega
    simp [h0, h1]
  · rw [if_neg h]
    rw [List.drop_append_of_le_length (by omega)]
    congr 1
    rw [List.drop_drop]
    congr 1
    omega

lemma updateSeq_inv (interval delta_t : ℚ)
    (hN : 1 ≤ (DataChart.init interval delta_t).samples) (vs : List ℚ) :
    chartInv delta_t (DataChart.init interval delta_t).samples vs
      ((DataChart.init interval delta_t).updateSeq vs) := by
  induction vs using List.reverseRecOn with
  | nil =>
    refine ⟨rfl, rfl, ?_, ?_, ?_, ?_, ?_, ?_, ?_⟩ <;>
      simp [DataChart.updateSeq, DataChart.init, linspace_length, timesList]
  | append_singleton vs v ih =>
    obtain ⟨h1, h2, h3, h4, h5, h6, h7, h8, h9⟩ := ih
    have hst : (DataChart.init interval delta_t).updateSeq (vs ++ [v]) =
        ((DataChart.init interval delta_t).updateSeq vs).update v := by
      simp [DataChart.updateSeq, List.foldl_append]
    obtain ⟨g1, g2, g3, g4, g5, g6, g7, g8, g9⟩ :=
      update_step ((DataChart.init interval delta_t).updateSeq vs) v
        vs.length (DataChart.init interval delta_t).samples
        ((timesList delta_t vs.length).drop
          (vs.length - (DataChart.init interval delta_t).samples))
        (vs.drop (vs.length - (DataChart.init interval delta_t).samples))
        h1 hN h3 h4 h5 h8 h9
    rw [hst]
    refine ⟨g1, g2.trans h2, g3, g4, ?_, ?_, ?_, ?_, ?_⟩
    · rw [g5]; simp
    · rw [g6, h6, h2]
      simp only [List.length_append, List.length_singleton]
      push_cast
      ring
    · rw [g7, h7]; simp
    · rw [g8, h6]
      have hdst := drop_sub_append (timesList delta_t vs.length)
        ((vs.length : ℚ) * delta_t) (DataChart.init interval delta_t).samples
        vs.length (timesList_length delta_t vs.length) hN
      rw [← timesList_succ] at hdst
      simp only [List.length_append, List.length_singleton]
      rw [hdst]
    · rw [g9]
      have hdst := drop_sub_append vs v
        (DataChart.init interval delta_t).samples vs.length rfl hN
      simp only [List.length_append, List.length_singleton]
      rw [hdst]

lemma window_shape (interval delta_t : ℚ) (N : ℕ)
    (hs : (DataChart.init interval delta_t).samples = N) (hN : 1 ≤ N)
    (vs : List ℚ) :
    ((DataChart.init interval delta_t).updateSeq vs).window =
      ((timesList delta_t vs.length).drop (vs.length - N)).zip
        (vs.drop (vs.length - N)) ∧
    ((DataChart.init interval delta_t).updateSeq vs).window.map Prod.snd =
      vs.drop (vs.length - N) ∧
    ((DataChart.init interval delta_t).updateSeq vs).window.length =
      min vs.length N := by
  obtain ⟨h1, h2, h3, h4, h5, h6, h7, h8, h9⟩ :=
    updateSeq_inv interval delta_t (by omega) vs
  rw [hs] at h8 h9
  have hw : ((DataChart.init interval delta_t).updateSeq vs).window =
      ((timesList delta_t vs.length).drop (vs.length - N)).zip
        (vs.drop (vs.length - N)) := by
    rw [DataChart.window, h8, h9]
  have hlen : ((timesList delta_t vs.length).drop (vs.length - N)).length =
      (vs.drop (vs.length - N)).length := by
    rw [List.length_drop, List.length_drop, timesList_length]
  refine ⟨hw, ?_, ?_⟩
  · rw [hw, map_snd_zip_eq _ _ hlen]
  · rw [hw, List.length_zip, hlen, List.length_drop]
    omega

lemma init_samples (interval delta_t : ℚ) :
    (DataChart.init interval delta_t).samples = (⌊interval / delta_t⌋).toNat :=
  rfl

lemma init_3_1_samples : (DataChart.init 3 1).samples = 3 := by
  rw [init_samples]
  norm_num
  rfl

lemma zeroLink_reads (i : ℕ) :
    readFrame zeroLink i = some ((fun _ : ℕ => zeroFrame) i) := rfl

lemma yieldedOf_append (a b : List Ev) :
    yieldedOf (a ++ b) = yieldedOf a ++ yieldedOf b := by
  simp [yieldedOf]

lemma loggedOf_append (a b : List Ev) :
    loggedOf (a ++ b) = loggedOf a ++ loggedOf b := by
  simp [loggedOf]

lemma yieldedOf_frameBlock (hf : Bool) (fr : ℕ → List ℕ) :
    ∀ (n i : ℕ), yieldedOf (frameBlock hf fr i n) = framesFrom fr i n := by
  intro n
  induction n with
  | zero => intro i; rfl
  | succ n ih =>
    intro i
    rw [frameBlock, framesFrom, yieldedOf_append, yieldedOf_append, ih (i + 1)]
    cases hf <;> simp [yieldedOf]

lemma loggedOf_frameBlock (fr : ℕ → List ℕ) :
    ∀ (n i : ℕ), loggedOf (frameBlock true fr i n) = framesFrom fr i n := by
  intro n
  induction n with
  | zero => intro i; rfl
  | succ n ih =>
    intro i
    rw [frameBlock, framesFrom, loggedOf_append, loggedOf_append, ih (i + 1)]
    simp [loggedOf]

lemma framesFrom_length (fr : ℕ → List ℕ) :
    ∀ (n i : ℕ), (framesFrom fr i n).length = n := by
  intro n
  induction n with
  | zero => intro i; rfl
  | succ n ih => intro i; rw [framesFrom, List.length_cons, ih (i + 1)]

lemma yieldedOf_run (hf : Bool) (fr : ℕ → List ℕ) (i n : ℕ) :
    yieldedOf ([Ev.start] ++ frameBlock hf fr i n ++ finishEvents hf) =
      framesFrom fr i n := by
  rw [yieldedOf_append, yieldedOf_append, yieldedOf_frameBlock]
  cases hf <;> simp [yieldedOf, finishEvents]

lemma loggedOf_run (fr : ℕ → List ℕ) (i n : ℕ) :
    loggedOf ([Ev.start] ++ frameBlock true fr i n ++ finishEvents true) =
      framesFrom fr i n := by
  rw [loggedOf_append, loggedOf_append, loggedOf_frameBlock]
  simp [loggedOf, finishEvents]

lemma collectAux_bounded (link : ℕ → Option (List ℕ)) (fr : ℕ → List ℕ)
    (hfr : ∀ i, readFrame link i = some (fr i)) (hf : Bool) :
    ∀ (n fuel i : ℕ) (acc : List Ev), n ≤ fuel →
      collectAux link none hf fuel (n : ℤ) i acc =
        some (acc ++ frameBlock hf fr i n ++ finishEvents hf) := by
  intro n
  induction n with
  | zero =>
    intro fuel i acc _
    cases fuel <;> simp [collectAux, frameBlock]
  | succ n ih =>
    intro fuel i acc hle
    cases fuel with
    | zero => omega
    | succ fuel =>
      have hcond : keepRunning none i = true ∧ ((n + 1 : ℕ) : ℤ) ≠ 0 :=
        ⟨rfl, by omega⟩
      have hpos : ((n + 1 : ℕ) : ℤ) > 0 := by omega
      have hcast : ((n + 1 : ℕ) : ℤ) - 1 = (n : ℤ) := by omega
      rw [collectAux, if_pos hcond]
      simp only [hfr i]
      rw [if_pos hpos, hcast, ih fuel (i + 1) _ (by omega)]
      simp [frameBlock, List.append_assoc]

lemma collectAux_stop (link : ℕ → Option (List ℕ)) (fr : ℕ → List ℕ)
    (hfr : ∀ i, readFrame link i = some (fr i)) (hf : Bool) :
    ∀ (r fuel i : ℕ) (acc : List Ev) (samples : ℤ), samples < 0 → r ≤ fuel →
      collectAux link (some (i + r)) hf fuel samples i acc =
        some (acc ++ frameBlock hf fr i r ++ finishEvents hf) := by
  intro r
  induction r with
  | zero =>
    intro fuel i acc samples hneg _
    cases fuel <;> simp [collectAux, keepRunning, frameBlock]
  | succ r ih =>
    intro fuel i acc samples hneg hle
    cases fuel with
    | zero => omega
    | succ fuel =>
      have hcond : keepRunning (some (i + (r + 1))) i = true ∧ samples ≠ 0 :=
        ⟨by simp [keepRunning], by omega⟩
      have hns : ¬ samples > 0 := by omega
      rw [collectAux, if_pos hcond]
      simp only [hfr i]
      rw [if_neg hns]
      have harg : i + (r + 1) = (i + 1) + r := by omega
      rw [harg, ih fuel (i + 1) _ samples hneg (by omega)]
      simp [frameBlock, List.append_assoc]

lemma collectAux_unbounded (link : ℕ → Option (List ℕ)) (fr : ℕ → List ℕ)
    (hfr : ∀ i, readFrame link i = some (fr i)) (hf : Bool) :
    ∀ (fuel i : ℕ) (acc : List Ev) (samples : ℤ), samples < 0 →
      collectAux link none hf fuel samples i acc = none := by
  intro fuel
  induction fuel with
  | zero =>
    intro i acc samples hneg
    rw [collectAux, if_pos ⟨rfl, by omega⟩]
  | succ fuel ih =>
    intro i acc samples hneg
    rw [collectAux, if_pos ⟨rfl, by omega⟩]
    simp only [hfr i]
    rw [if_neg (by omega : ¬ samples > 0)]
    exact ih (i + 1) _ samples hneg

lemma collectAux_shape (link : ℕ → Option (List ℕ)) (fr : ℕ → List ℕ)
    (hfr : ∀ i, readFrame link i = some (fr i)) :
    ∀ (fuel : ℕ) (samples : ℤ) (stopAfter : Option ℕ) (i : ℕ)
      (acc tr : List Ev),
      collectAux link stopAfter true fuel samples i acc = some tr →
      ∃ n, tr = acc ++ frameBlock true fr i n ++ finishEvents true := by
  intro fuel
  induction fuel with
  | zero =>
    intro samples stopAfter i acc tr h
    rw [collectAux] at h
    by_cases hc : keepRunning stopAfter i = true ∧ samples ≠ 0
    · rw [if_pos hc] at h
      exact absurd h (by simp)
    · rw [if_neg hc] at h
      exact ⟨0, by simpa [frameBlock] using h.symm⟩
  | succ fuel ih =>
    intro samples stopAfter i acc tr h
    rw [collectAux] at h
    by_cases hc : keepRunning stopAfter i = true ∧ samples ≠ 0
    · rw [if_pos hc] at h
      simp only [hfr i] at h
      obtain ⟨n, hn⟩ := ih _ _ _ _ _ h
      exact ⟨n + 1, by rw [hn]; simp [frameBlock, List.append_assoc]⟩
    · rw [if_neg hc] at h
      exact ⟨0, by simpa [frameBlock] using h.symm⟩

lemma collectAux_raised (link : ℕ → Option (List ℕ)) (stopAfter : Option ℕ)
    (hf : Bool) :
    ∀ (fuel : ℕ) (samples : ℤ) (i : ℕ) (acc tr : List Ev),
      Ev.raised ∉ acc → Ev.sentStop ∉ acc → Ev.closedFile ∉ acc →
      collectAux link stopAfter hf fuel samples i acc = some tr →
      Ev.raised ∈ tr →
      (∃ pre, tr = pre ++ [Ev.raised]) ∧
        Ev.sentStop ∉ tr ∧ Ev.closedFile ∉ tr := by
  intro fuel
  induction fuel with
  | zero =>
    intro samples i acc tr hra hst hcl h hr
    rw [collectAux] at h
    by_cases hc : keepRunning stopAfter i = true ∧ samples ≠ 0
    · rw [if_pos hc] at h
      exact absurd h (by simp)
    · rw [if_neg hc] at h
      obtain rfl : acc ++ finishEvents hf = tr := by simpa using h
      rw [List.mem_append] at hr
      rcases hr with hr | hr
      · exact absurd hr hra
      · exact absurd hr (by cases hf <;> simp [finishEvents])
  | succ fuel ih =>
    intro samples i acc tr hra hst hcl h hr
    rw [collectAux] at h
    by_cases hc : keepRunning stopAfter i = true ∧ samples ≠ 0
    · rw [if_pos hc] at h
      cases hread : readFrame link i with
      | none =>
        rw [hread] at h
        obtain rfl : acc ++ [Ev.raised] = tr := by simpa using h
        refine ⟨⟨acc, rfl⟩, ?_, ?_⟩
        · rw [List.mem_append]
          rintro (hx | hx)
          · exact hst hx
          · simp at hx
        · rw [List.mem_append]
          rintro (hx | hx)
          · exact hcl hx
          · simp at hx
      | some f =>
        rw [hread] at h
        simp only at h
        refine ih _ _ _ _ ?_ ?_ ?_ h hr
        · simp only [List.mem_append]
          rintro ((hx | hx) | hx)
          · exact hra hx
          · revert hx; cases hf <;> simp
          · simp at hx
        · simp only [List.mem_append]
          rintro ((hx | hx) | hx)
          · exact hst hx
          · revert hx; cases hf <;> simp
          · simp at hx
        · simp only [List.mem_append]
          rintro ((hx | hx) | hx)
          · exact hcl hx
          · revert hx; cases hf <;> simp
          · simp at hx
    · rw [if_neg hc] at h
      obtain rfl : acc ++ finishEvents hf = tr := by simpa using h
      rw [List.mem_append] at hr
      rcases hr with hr | hr
      · exact absurd hr hra
      · exact absurd hr (by cases hf <;> simp [finishEvents])

/-- C1: for every decoded frame and every flag combination, the
corrector returns the frame with, for each enabled channel,
corrected AB = AB - 2 tau0 A B, corrected ABp = ABp - 2 tau1 A Bp,
corrected BBp = BBp - 2 tau2 B Bp, computed from the uncorrected A, B,
Bp of the same frame, all other channels (ABBp included) unchanged; in
particular [10,10,10,5,5,5,2] with tau [1/10,1/10,1/10] and only AB
enabled yields [10,10,10,-15,5,5,2]. -/
theorem c1_correction_formula (a b bp ab abp bbp abbp t0 t1 t2 : ℚ)
    (fAB fABp fBBp : Bool) :
    applyCorrection fAB fABp fBBp [t0, t1, t2] [a, b, bp, ab, abp, bbp, abbp] =
      [a, b, bp,
       if fAB then ab - 2 * t0 * a * b else ab,
       if fABp then abp - 2 * t1 * a * bp else abp,
       if fBBp then bbp - 2 * t2 * b * bp else bbp,
       abbp] ∧
    applyCorrection true false false [1/10, 1/10, 1/10]
        [10, 10, 10, 5, 5, 5, 2] = [10, 10, 10, -15, 5, 5, 2] := by
  constructor
  · cases fAB <;> cases fABp <;> cases fBBp <;>
      simp [applyCorrection, List.set] <;> ring_nf <;> simp
  · norm_num [applyCorrection, List.set]

/-- C2 counterexample: with run_gui default vector [1,1,1] and the last
validated vector [2,2,2] active, a parsed 2-element input makes the
frame use the default [1,1,1] instead of the last validated [2,2,2]. -/
theorem c2_tau_cex :
    tauStep [1, 1, 1] (TauInput.parsed [5, 5]) [2, 2, 2] = [1, 1, 1] ∧
    tauStep [1, 1, 1] (TauInput.parsed [5, 5]) [2, 2, 2] ≠ [2, 2, 2] := by
  constructor
  · rfl
  · simp [tauStep]

/-- C2 (amended): an unparsable coefficient text leaves the active tau
unchanged and raises nothing; a text that parses to a vector of wrong
arity resets tau to the initial default vector initial_tau (not to the
last validated vector); a parsed 3-element vector becomes the new tau. -/
theorem c2_tau_amended (initial_tau tau : List ℚ) (inp : TauInput) :
    (inp = TauInput.unparsable → tauStep initial_tau inp tau = tau) ∧
    (∀ v, inp = TauInput.parsed v → v.length ≠ 3 →
      tauStep initial_tau inp tau = initial_tau) ∧
    (∀ v, inp = TauInput.parsed v → v.length = 3 →
      tauStep initial_tau inp tau = v) := by
  refine ⟨?_, ?_, ?_⟩
  · intro h; subst h; rfl
  · intro v hv hlen; subst hv; simp [tauStep, hlen]
  · intro v hv hlen; subst hv; simp [tauStep, hlen]

theorem c2_tau_amended_witness :
    tauStep [1, 1, 1] TauInput.unparsable [2, 2, 2] = [2, 2, 2] :=
  (c2_tau_amended [1, 1, 1] [2, 2, 2] TauInput.unparsable).1 rfl

/-- C8: every 28-byte input decodes by splitting into seven contiguous
4-byte blocks, reversing each block and interpreting the reversed block
as an unsigned 32-bit little-endian integer, yielding the 7 channel
counts in wire order, each below 2 to the 32; an input of seven blocks
that each reverse to the encoding of 1 decodes to [1,1,1,1,1,1,1]. -/
theorem c8_decode (bs : List ℕ) (h : bs.length = 28)
    (hb : ∀ x ∈ bs, x < 256) :
    decodeFrame bs =
      some ((List.range 7).map fun n => u32_le ((bs.drop (4 * n)).take 4).reverse) ∧
    ((List.range 7).map fun n => u32_le ((bs.drop (4 * n)).take 4).reverse).length = 7 ∧
    (∀ x ∈ (List.range 7).map fun n => u32_le ((bs.drop (4 * n)).take 4).reverse,
      x < 2 ^ 32) ∧
    decodeFrame sampleFrameBytes = some [1, 1, 1, 1, 1, 1, 1] := by
  refine ⟨by simp [decodeFrame, h, decode4], by simp, ?_, by decide⟩
  intro x hx
  simp only [List.mem_map] at hx
  obtain ⟨n, -, rfl⟩ := hx
  exact u32_le_lt _ fun y hy => hb y (mem_block_sub hy)

theorem c8_decode_witness :
    decodeFrame sampleFrameBytes =
      some ((List.range 7).map fun n =>
        u32_le ((sampleFrameBytes.drop (4 * n)).take 4).reverse) ∧
    ((List.range 7).map fun n =>
      u32_le ((sampleFrameBytes.drop (4 * n)).take 4).reverse).length = 7 ∧
    (∀ x ∈ (List.range 7).map fun n =>
        u32_le ((sampleFrameBytes.drop (4 * n)).take 4).reverse, x < 2 ^ 32) ∧
    decodeFrame sampleFrameBytes = some [1, 1, 1, 1, 1, 1, 1] :=
  c8_decode sampleFrameBytes (by decide) (by decide)

/-- C4: after ingesting any sample sequence vs into a chart of capacity
N = int(interval/delta_t), N at least 1 (a capacity-0 chart raises in
the numpy source), the window holds exactly the last min(k, N) samples
in chronological order where k is the number of updates, the window
length is min(k, N) and never exceeds N, and ingesting one more sample
into a full window keeps all but the oldest entry, in strict FIFO
order. -/
theorem c4_window_fifo (interval delta_t : ℚ) (N : ℕ)
    (hs : (DataChart.init interval delta_t).samples = N) (hN : 1 ≤ N)
    (vs : List ℚ) :
    ((DataChart.init interval delta_t).updateSeq vs).window.map Prod.snd =
      vs.drop (vs.length - N) ∧
    ((DataChart.init interval delta_t).updateSeq vs).window.length =
      min vs.length N ∧
    ((DataChart.init interval delta_t).updateSeq vs).window.length ≤ N ∧
    (∀ v : ℚ,
      ((DataChart.init interval delta_t).updateSeq vs).window.length = N →
      (((DataChart.init interval delta_t).updateSeq vs).update v).window.map
          Prod.snd =
        (((DataChart.init interval delta_t).updateSeq vs).window.map
            Prod.snd).drop 1 ++ [v]) := by
  obtain ⟨hw, hv, hl⟩ := window_shape interval delta_t N hs hN vs
  refine ⟨hv, hl, by omega, ?_⟩
  intro v hfull
  have hk : N ≤ vs.length := by omega
  have hst : ((DataChart.init interval delta_t).updateSeq vs).update v =
      (DataChart.init interval delta_t).updateSeq (vs ++ [v]) := by
    simp [DataChart.updateSeq, List.foldl_append]
  obtain ⟨-, hv2, -⟩ := window_shape interval delta_t N hs hN (vs ++ [v])
  rw [hst, hv2, hv]
  simp only [List.length_append, List.length_singleton]
  rw [drop_sub_append vs v N vs.length rfl hN, if_neg (by omega)]

theorem c4_window_fifo_witness :
    (((DataChart.init 3 1).updateSeq [1, 2, 3, 4]).window.map Prod.snd =
      [(1 : ℚ), 2, 3, 4].drop ([(1 : ℚ), 2, 3, 4].length - 3)) ∧
    ((((DataChart.init 3 1).updateSeq [1, 2, 3, 4]).update 5).window.map
        Prod.snd =
      (((DataChart.init 3 1).updateSeq [1, 2, 3, 4]).window.map
          Prod.snd).drop 1 ++ [5]) := by
  have h := c4_window_fifo 3 1 3 init_3_1_samples (by omega) [1, 2, 3, 4]
  refine ⟨h.1, h.2.2.2 5 ?_⟩
  rw [h.2.1]
  rfl

/-- C5 counterexample: with interval 3 and delta_t 1, the first ingested
sample is stored with timestamp 0, while the claim as stated predicts
timestamp 1 * delta_t = 1. -/
theorem c5_timestamp_cex :
    ((DataChart.init 3 1).updateSeq [7]).window = [(0, 7)] ∧
    ((DataChart.init 3 1).updateSeq [7]).window ≠ [(1, 7)] := by
  obtain ⟨hw, -, -⟩ := window_shape 3 1 3 init_3_1_samples (by omega) [7]
  have hzip : ((timesList 1 [(7 : ℚ)].length).drop ([(7 : ℚ)].length - 3)).zip
      ([(7 : ℚ)].drop ([(7 : ℚ)].length - 3)) = [(0, 7)] := by
    simp [timesList, List.range_succ]
  rw [hw, hzip]
  norm_num

/-- C5 (amended): update appends the pair (time, value) using the time
BEFORE advancing and only then advances time by delta_t; hence the k-th
ingested sample is stored with timestamp (k-1)*delta_t (timesList lists
these timestamps: its j-th entry, 0-indexed, is j*delta_t), and after k
updates the clock reads k*delta_t. -/
theorem c5_timestamps (interval delta_t : ℚ) (N : ℕ)
    (hs : (DataChart.init interval delta_t).samples = N) (hN : 1 ≤ N)
    (vs : List ℚ) :
    ((DataChart.init interval delta_t).updateSeq vs).window =
      ((timesList delta_t vs.length).drop (vs.length - N)).zip
        (vs.drop (vs.length - N)) ∧
    ((DataChart.init interval delta_t).updateSeq vs).time =
      (vs.length : ℚ) * delta_t := by
  obtain ⟨hw, -, -⟩ := window_shape interval delta_t N hs hN vs
  obtain ⟨-, -, -, -, -, h6, -, -, -⟩ :=
    updateSeq_inv interval delta_t (by omega) vs
  exact ⟨hw, h6⟩

theorem c5_timestamps_witness :
    ((DataChart.init 3 1).updateSeq [5, 6]).window =
      ((timesList 1 [(5 : ℚ), 6].length).drop ([(5 : ℚ), 6].length - 3)).zip
        ([(5 : ℚ), 6].drop ([(5 : ℚ), 6].length - 3)) ∧
    ((DataChart.init 3 1).updateSeq [5, 6]).time =
      (([(5 : ℚ), 6].length : ℕ) : ℚ) * 1 :=
  c5_timestamps 3 1 3 init_3_1_samples (by omega) [5, 6]

/-- C3: whenever a logging run of collect_data terminates, the records
written to the log are exactly the decoded raw frames, one record per
yielded frame, in arrival order: the log equals the yielded raw stream
for some frame count n, for every budget and stop behaviour. The
downstream correction of run_gui happens after the log line was already
formatted and written, so corrected values never reach the log. -/
theorem c3_raw_logging (link : ℕ → Option (List ℕ)) (fr : ℕ → List ℕ)
    (hfr : ∀ i, readFrame link i = some (fr i)) (stopAfter : Option ℕ)
    (samples : ℤ) (fuel : ℕ) (tr : List Ev)
    (h : collect_data link stopAfter true fuel samples = some tr) :
    ∃ n, loggedOf tr = framesFrom fr 0 n ∧
      yieldedOf tr = framesFrom fr 0 n := by
  obtain ⟨n, hn⟩ :=
    collectAux_shape link fr hfr fuel samples stopAfter 0 [Ev.start] tr h
  subst hn
  exact ⟨n, loggedOf_run fr 0 n, yieldedOf_run true fr 0 n⟩

theorem c3_raw_logging_witness :
    ∃ n, loggedOf [Ev.start, Ev.logged zeroFrame, Ev.yielded zeroFrame,
        Ev.logged zeroFrame, Ev.yielded zeroFrame, Ev.closedFile,
        Ev.sentStop] = framesFrom (fun _ => zeroFrame) 0 n ∧
      yieldedOf [Ev.start, Ev.logged zeroFrame, Ev.yielded zeroFrame,
        Ev.logged zeroFrame, Ev.yielded zeroFrame, Ev.closedFile,
        Ev.sentStop] = framesFrom (fun _ => zeroFrame) 0 n :=
  c3_raw_logging zeroLink (fun _ => zeroFrame) zeroLink_reads
    none 2 2 _ (by decide)

/-- C6: on an unbounded stream (budget -1) with the stop request raised
after the third frame, any terminating run with at least 3 fuel yields
exactly the frames 0, 1, 2 — whole frames only, the flag being checked
once per frame boundary — and then the trace carries exactly one stop
command byte and a log-file close. -/
theorem c6_stop_after_three (link : ℕ → Option (List ℕ)) (fr : ℕ → List ℕ)
    (hfr : ∀ i, readFrame link i = some (fr i)) (fuel : ℕ)
    (hfuel : 3 ≤ fuel) :
    ∃ tr, collect_data link (some 3) true fuel (-1) = some tr ∧
      yieldedOf tr = [fr 0, fr 1, fr 2] ∧
      (yieldedOf tr).length = 3 ∧
      tr.count Ev.sentStop = 1 ∧
      Ev.closedFile ∈ tr := by
  have h := collectAux_stop link fr hfr true 3 fuel 0 [Ev.start] (-1)
    (by omega) hfuel
  rw [Nat.zero_add] at h
  refine ⟨_, h, ?_, ?_, ?_, ?_⟩
  · rw [yieldedOf_run]
    rfl
  · rw [yieldedOf_run, framesFrom_length]
  · simp [frameBlock, finishEvents, List.count_append, List.count_cons,
      List.count_nil]
  · simp [finishEvents]

theorem c6_stop_after_three_witness :
    ∃ tr, collect_data zeroLink (some 3) true 3 (-1) = some tr ∧
      yieldedOf tr = [zeroFrame, zeroFrame, zeroFrame] ∧
      (yieldedOf tr).length = 3 ∧
      tr.count Ev.sentStop = 1 ∧
      Ev.closedFile ∈ tr :=
  c6_stop_after_three zeroLink (fun _ => zeroFrame) zeroLink_reads
    3 (by omega)

/-- C7: with a healthy link, a nonnegative budget n yields exactly the
first n frames and terminates with no stop request ever raised; a
negative budget never terminates on its own (every fuel bound is
exhausted with the loop still running) and is governed only by the stop
signal: a stop after frame j ends the stream with exactly j frames. -/
theorem c7_budget (link : ℕ → Option (List ℕ)) (fr : ℕ → List ℕ)
    (hfr : ∀ i, readFrame link i = some (fr i)) (hf : Bool) :
    (∀ (n fuel : ℕ), n ≤ fuel →
      ∃ tr, collect_data link none hf fuel (n : ℤ) = some tr ∧
        yieldedOf tr = framesFrom fr 0 n ∧ (yieldedOf tr).length = n) ∧
    (∀ samples : ℤ, samples < 0 →
      (∀ fuel, collect_data link none hf fuel samples = none) ∧
      (∀ (j fuel : ℕ), j ≤ fuel →
        ∃ tr, collect_data link (some j) hf fuel samples = some tr ∧
          yieldedOf tr = framesFrom fr 0 j ∧
          (yieldedOf tr).length = j)) := by
  constructor
  · intro n fuel hle
    refine ⟨_, collectAux_bounded link fr hfr hf n fuel 0 [Ev.start] hle,
      yieldedOf_run hf fr 0 n, ?_⟩
    rw [yieldedOf_run, framesFrom_length]
  · intro samples hneg
    constructor
    · intro fuel
      exact collectAux_unbounded link fr hfr hf fuel 0 [Ev.start] samples hneg
    · intro j fuel hle
      have h := collectAux_stop link fr hfr hf j fuel 0 [Ev.start] samples
        hneg hle
      rw [Nat.zero_add] at h
      refine ⟨_, h, yieldedOf_run hf fr 0 j, ?_⟩
      rw [yieldedOf_run, framesFrom_length]

theorem c7_budget_witness :
    (∃ tr, collect_data zeroLink none true 2 ((2 : ℕ) : ℤ) = some tr ∧
      yieldedOf tr = framesFrom (fun _ => zeroFrame) 0 2 ∧
      (yieldedOf tr).length = 2) ∧
    collect_data zeroLink none true 5 (-1) = none := by
  have h := c7_budget zeroLink (fun _ => zeroFrame) zeroLink_reads true
  exact ⟨h.1 2 2 (by omega), (h.2 (-1) (by omega)).1 5⟩

/-- C9 counterexample: a link whose first read raises produces the
trace [start, raised]: the error surfaces, but no stop command byte is
sent and the log file is not closed before it surfaces, contrary to the
claimed best-effort cleanup. -/
theorem c9_raise_cex :
    collect_data (fun _ => none) none true 5 (-1) =
      some [Ev.start, Ev.raised] ∧
    Ev.sentStop ∉ [Ev.start, Ev.raised] ∧
    Ev.closedFile ∉ [Ev.start, Ev.raised] := by
  refine ⟨by decide, by decide, by decide⟩

/-- C9 (amended): a mid-stream read failure does surface to the caller
(every terminating trace containing the raised error ends with it, so
the error is never suppressed), but collect_data performs no cleanup
before surfacing it: the trace carries no stop command byte and no
log-file close. -/
theorem c9_no_cleanup (link : ℕ → Option (List ℕ)) (stopAfter : Option ℕ)
    (hf : Bool) (fuel : ℕ) (samples : ℤ) (tr : List Ev)
    (h : collect_data link stopAfter hf fuel samples = some tr)
    (hr : Ev.raised ∈ tr) :
    (∃ pre, tr = pre ++ [Ev.raised]) ∧
      Ev.sentStop ∉ tr ∧ Ev.closedFile ∉ tr :=
  collectAux_raised link stopAfter hf fuel samples 0 [Ev.start] tr
    (by decide) (by decide) (by decide) h hr

theorem c9_no_cleanup_witness :
    (∃ pre, [Ev.start, Ev.raised] = pre ++ [Ev.raised]) ∧
      Ev.sentStop ∉ [Ev.start, Ev.raised] ∧
      Ev.closedFile ∉ [Ev.start, Ev.raised] :=
  c9_no_cleanup (fun _ => none) none true 5 (-1) [Ev.start, Ev.raised]
    (by decide) (by decide)

/-- C10: on both normal termination paths — budget exhaustion with no
stop request ever raised, and an external stop request on an unbounded
stream — the trace ends with the log-file close followed by the single
stop command byte, in that order. -/
theorem c10_close_then_stop (link : ℕ → Option (List ℕ)) (fr : ℕ → List ℕ)
    (hfr : ∀ i, readFrame link i = some (fr i)) :
    (∀ (n fuel : ℕ), n ≤ fuel →
      ∃ pre, collect_data link none true fuel (n : ℤ) =
        some (pre ++ [Ev.closedFile, Ev.sentStop])) ∧
    (∀ (j fuel : ℕ) (samples : ℤ), samples < 0 → j ≤ fuel →
      ∃ pre, collect_data link (some j) true fuel samples =
        some (pre ++ [Ev.closedFile, Ev.sentStop])) := by
  constructor
  · intro n fuel hle
    refine ⟨[Ev.start] ++ frameBlock true fr 0 n, ?_⟩
    rw [collect_data, collectAux_bounded link fr hfr true n fuel 0 [Ev.start] hle]
    simp [finishEvents, List.append_assoc]
  · intro j fuel samples hneg hle
    refine ⟨[Ev.start] ++ frameBlock true fr 0 j, ?_⟩
    have h := collectAux_stop link fr hfr true j fuel 0 [Ev.start] samples
      hneg hle
    rw [Nat.zero_add] at h
    rw [collect_data, h]
    simp [finishEvents, List.append_assoc]

theorem c10_close_then_stop_witness :
    (∃ pre, collect_data zeroLink none true 1 ((1 : ℕ) : ℤ) =
      some (pre ++ [Ev.closedFile, Ev.sentStop])) ∧
    (∃ pre, collect_data zeroLink (some 2) true 2 (-1) =
      some (pre ++ [Ev.closedFile, Ev.sentStop])) := by
  have h := c10_close_then_stop zeroLink (fun _ => zeroFrame)
    zeroLink_reads
  exact ⟨h.1 1 1 (by omega), h.2 2 2 (-1) (by omega) (by omega)⟩

end Coincidence
